import Mathlib

/- Formal model of src/ngscopeclient/ScopeDeskewWizard.cpp (scopehal-apps).

   Modelling conventions:
   * int64_t quantities (timescales, trigger phases, offsets, durations,
     timestamps, candidate offsets) are modelled as Int; overflow is not
     modelled (the quantities involved stay far below 2^63 in the wizard).
   * float amplitudes and double accumulators are modelled as Rat.  The only
     floating-point behaviour the claims depend on is that
     correlation / samplesProcessed is the not-a-number value when
     samplesProcessed == 0 (the accumulator is 0 whenever the count is 0),
     and that `NaN > x` is false for every x.  A per-candidate normalized
     correlation is therefore an `Option Rat` where `none` stands for NaN,
     and the best-so-far comparison treats `none` as never greater.
   * out-of-bounds vector accesses (undefined behaviour in C++) are modelled
     by `List.get?` lookups; an access past the end makes the surrounding
     computation return `none`. -/

/-- A dense-packed analog waveform (UniformAnalogWaveform): sample i occurs at
time `i * m_timescale + m_triggerPhase` femtoseconds. -/
structure UniformAnalogWaveform where
  m_timescale : ℤ
  m_triggerPhase : ℤ
  m_samples : List ℚ
  deriving DecidableEq

/-- `size()` of a uniform waveform: the number of samples. -/
def UniformAnalogWaveform.size (w : UniformAnalogWaveform) : ℕ :=
  w.m_samples.length

/-- A sparse analog waveform (SparseAnalogWaveform): sample i spans
`m_offsets[i]*m_timescale + m_triggerPhase` to
`(m_offsets[i]+m_durations[i])*m_timescale + m_triggerPhase`. -/
structure SparseAnalogWaveform where
  m_timescale : ℤ
  m_triggerPhase : ℤ
  m_offsets : List ℤ
  m_durations : List ℤ
  m_samples : List ℚ
  deriving DecidableEq

/-- `size()` of a sparse waveform: the length of the offsets buffer. -/
def SparseAnalogWaveform.size (w : SparseAnalogWaveform) : ℕ :=
  w.m_offsets.length

/-- DoProcessWaveformUniformUnequalRate, line 935/938: the candidate offset in
femtoseconds, shifted by the relative trigger phase:
`deltaFs = ppri->m_timescale * d; deltaFs += (ppri->m_triggerPhase - psec->m_triggerPhase)`. -/
def uniformDeltaFs (ppri psec : UniformAnalogWaveform) (d : ℤ) : ℤ :=
  ppri.m_timescale * d + (ppri.m_triggerPhase - psec.m_triggerPhase)

/-- DoProcessWaveformSparse, line 611: `deltaFs = ppri->m_timescale * d`.
No trigger-phase term appears on the sparse path. -/
def sparseDeltaFs (ppri : SparseAnalogWaveform) (d : ℤ) : ℤ :=
  ppri.m_timescale * d

/-- DoProcessWaveformSparse, line 621: absolute timestamp of primary sample i
(whose offset field is `oi`): `start = oi * m_timescale + m_triggerPhase`. -/
def sparseStart (ppri : SparseAnalogWaveform) (oi : ℤ) : ℤ :=
  oi * ppri.m_timescale + ppri.m_triggerPhase

/-- DoProcessWaveformSparse, line 624: target timestamp in the secondary
waveform for primary sample with offset `oi` at candidate `d`. -/
def sparseTarget (ppri : SparseAnalogWaveform) (d oi : ℤ) : ℤ :=
  sparseStart ppri oi + sparseDeltaFs ppri d

/-- DoProcessWaveformSparse, lines 632-633: absolute end time of secondary
sample with offset `o` and duration `du`. -/
def sparseSecEnd (psec : SparseAnalogWaveform) (o du : ℤ) : ℤ :=
  (o + du) * psec.m_timescale + psec.m_triggerPhase

/-- The cursor-advance while loop of DoProcessWaveformUniformUnequalRate
(lines 956-969), with `c = psec->m_timescale`:
`while((isecondary+1)*c < utarget) { isecondary++; if(isecondary >= slen) {done; break;} }`.
The second argument `rem` encodes `slen - (s+1)`: the number of increments
still allowed before the `isecondary >= slen` check fires.  `none` is the
`done = true` exhausted case, `some s` the final cursor. -/
def advanceUniformAux (c target : ℤ) : ℕ → ℕ → Option ℕ
  | s, 0 => if ((s : ℤ) + 1) * c < target then none else some s
  | s, rem + 1 =>
    if ((s : ℤ) + 1) * c < target then advanceUniformAux c target (s + 1) rem
    else some s

/-- Entry point of the uniform cursor-advance loop at cursor `s` with
secondary length `slen`. -/
def advanceUniform (c : ℤ) (slen : ℕ) (target : ℤ) (s : ℕ) : Option ℕ :=
  advanceUniformAux c target s (slen - (s + 1))

/-- The cursor-advance while loop of DoProcessWaveformSparse (lines 631-643).
The guard reads `m_offsets[isecondary]` and `m_durations[isecondary]` before
any bounds check; those reads are modelled with `List.get?` and an
out-of-range read yields `none`.  `some none` is the exhausted (`done`) case,
`some (some s)` the final cursor.  `rem` encodes `size - (s+1)` as above. -/
def advanceSparseAux (psec : SparseAnalogWaveform) (target : ℤ) : ℕ → ℕ → Option (Option ℕ)
  | s, 0 =>
    match psec.m_offsets.get? s, psec.m_durations.get? s with
    | some o, some du =>
      if sparseSecEnd psec o du < target then some none else some (some s)
    | _, _ => none
  | s, rem + 1 =>
    match psec.m_offsets.get? s, psec.m_durations.get? s with
    | some o, some du =>
      if sparseSecEnd psec o du < target then advanceSparseAux psec target (s + 1) rem
      else some (some s)
    | _, _ => none

/-- Entry point of the sparse cursor-advance loop. -/
def advanceSparse (psec : SparseAnalogWaveform) (target : ℤ) (s : ℕ) : Option (Option ℕ) :=
  advanceSparseAux psec target s (psec.size - (s + 1))

/-- Inner loop of DoProcessWaveformUniformUnequalRate (lines 944-974) over
primary samples.  Arguments: current index `i`, cursor `isecondary`,
`samplesProcessed`, `correlation`, and the remaining iteration count
(`ppri.size - i`).  Returns `(samplesProcessed, correlation)`;
`none` signals an out-of-bounds sample read. -/
def uniformCorrLoop (ppri psec : UniformAnalogWaveform) (deltaFs : ℤ) :
    ℕ → ℕ → ℕ → ℚ → ℕ → Option (ℕ × ℚ)
  | _, _, n, corr, 0 => some (n, corr)
  | i, s, n, corr, rem + 1 =>
    let target : ℤ := (i : ℤ) * ppri.m_timescale + deltaFs
    if target < 0 then uniformCorrLoop ppri psec deltaFs (i + 1) s n corr rem
    else
      match advanceUniform psec.m_timescale psec.size target s with
      | none => some (n, corr)
      | some s' =>
        match ppri.m_samples.get? i, psec.m_samples.get? s' with
        | some a, some b =>
          uniformCorrLoop ppri psec deltaFs (i + 1) s' (n + 1) (corr + a * b) rem
        | _, _ => none

/-- One candidate offset of the Uniform/Uniform CPU path: body of the
`for d` loop of DoProcessWaveformUniformUnequalRate up to the accumulation. -/
def evalUniformCandidate (ppri psec : UniformAnalogWaveform) (d : ℤ) : Option (ℕ × ℚ) :=
  uniformCorrLoop ppri psec (uniformDeltaFs ppri psec d) 0 0 0 0 ppri.size

/-- Inner loop of DoProcessWaveformSparse (lines 618-650) over primary
samples, same conventions as `uniformCorrLoop`. -/
def sparseCorrLoop (ppri psec : SparseAnalogWaveform) (deltaFs : ℤ) :
    ℕ → ℕ → ℕ → ℚ → ℕ → Option (ℕ × ℚ)
  | _, _, n, corr, 0 => some (n, corr)
  | i, s, n, corr, rem + 1 =>
    match ppri.m_offsets.get? i, ppri.m_samples.get? i with
    | some oi, some a =>
      let target : ℤ := sparseStart ppri oi + deltaFs
      if target < 0 then sparseCorrLoop ppri psec deltaFs (i + 1) s n corr rem
      else
        match advanceSparse psec target s with
        | none => none
        | some none => some (n, corr)
        | some (some s') =>
          match psec.m_samples.get? s' with
          | some b => sparseCorrLoop ppri psec deltaFs (i + 1) s' (n + 1) (corr + a * b) rem
          | none => none
    | _, _ => none

/-- One candidate offset of the Sparse/Sparse CPU path. -/
def evalSparseCandidate (ppri psec : SparseAnalogWaveform) (d : ℤ) : Option (ℕ × ℚ) :=
  sparseCorrLoop ppri psec (sparseDeltaFs ppri d) 0 0 0 0 ppri.size

/-- Line 652/976: `normalizedCorrelation = correlation / samplesProcessed`.
When `samplesProcessed == 0` the accumulator is also 0 and the IEEE quotient
0.0/0 is NaN, modelled as `none`. -/
def normCorr (r : ℕ × ℚ) : Option ℚ :=
  if r.1 = 0 then none else some (r.2 / (r.1 : ℚ))

/-- Lines 654-660/978-984: the mutex-guarded best-so-far update
`if(normalizedCorrelation > m_bestCorrelation) { ... }`.  A NaN normalized
correlation (`none`) compares false and never replaces the best. -/
def updateBest (best : ℚ × ℤ) (d : ℤ) (nc : Option ℚ) : ℚ × ℤ :=
  match nc with
  | none => best
  | some v => if best.1 < v then (v, d) else best

/-- The candidate offset at position `j` of the window: `j - maxSkewSamples`
(the host scan of the Vulkan path recovers it as `i - m_maxSkewSamples`). -/
def offsetOfIndex (maxSkewSamples j : ℕ) : ℤ :=
  (j : ℤ) - (maxSkewSamples : ℤ)

/-- The candidate-offset window `[-maxSkewSamples, +maxSkewSamples)`, in
loop order `d = -maxSkewSamples, ..., maxSkewSamples - 1`. -/
def correlationOffsets (maxSkewSamples : ℕ) : List ℤ :=
  (List.range (2 * maxSkewSamples)).map (offsetOfIndex maxSkewSamples)

/-- Sequential rendering of the `#pragma omp parallel for` candidate loop:
each candidate is evaluated and merged into the running best under the
mutex.  An out-of-bounds access in any candidate poisons the whole run. -/
def runCandidates (eval : ℤ → Option (ℕ × ℚ)) : List ℤ → ℚ × ℤ → Option (ℚ × ℤ)
  | [], best => some best
  | d :: ds, best =>
    match eval d with
    | none => none
    | some r => runCandidates eval ds (updateBest best d (normCorr r))

/-- ScopeDeskewWizard constructor (lines 79-81): `m_bestCorrelation(0),
m_bestCorrelationOffset(0)`. -/
def constructionBest : ℚ × ℤ := (0, 0)

/-- DoProcessWaveformUniformUnequalRate: full CPU run over the window,
starting from the current `(m_bestCorrelation, m_bestCorrelationOffset)`. -/
def DoProcessWaveformUniformUnequalRate (ppri psec : UniformAnalogWaveform)
    (maxSkewSamples : ℕ) (best : ℚ × ℤ) : Option (ℚ × ℤ) :=
  runCandidates (evalUniformCandidate ppri psec) (correlationOffsets maxSkewSamples) best

/-- DoProcessWaveformSparse: full CPU run over the window. -/
def DoProcessWaveformSparse (ppri psec : SparseAnalogWaveform)
    (maxSkewSamples : ℕ) (best : ℚ × ℤ) : Option (ℚ × ℤ) :=
  runCandidates (evalSparseCandidate ppri psec) (correlationOffsets maxSkewSamples) best

/-- Per-candidate normalized correlation (NaN as `none`); helper joining an
out-of-bounds candidate evaluation with the NaN case. -/
def candNc (eval : ℤ → Option (ℕ × ℚ)) (d : ℤ) : Option ℚ :=
  match eval d with
  | none => none
  | some r => normCorr r

/-- Modelled from the spec: the compute shader
`shaders/ScopeDeskewUniformUnequalRate.spv` dispatched by
DoProcessWaveformUniformUnequalRateVulkan is not part of this repository.
Per the spec the accelerator fills `corrOut` with the normalized correlation
of every candidate offset, "computed by the equivalent per-offset reduction
executed on the accelerator", i.e. the same value the CPU inner loop
produces for that candidate (`none` = NaN when no samples overlap). -/
def gpuCorrOut (ppri psec : UniformAnalogWaveform) (maxSkewSamples : ℕ) : List (Option ℚ) :=
  (correlationOffsets maxSkewSamples).map (candNc (evalUniformCandidate ppri psec))

/-- Host-side scan of DoProcessWaveformUniformUnequalRateVulkan
(lines 1017-1026): `bestOffset=0; bestCorr=0; for i: if(corrOut[i] > bestCorr)
{ bestCorr = corrOut[i]; bestOffset = i - m_maxSkewSamples; }`.  A NaN entry
(`none`) compares false. -/
def vulkanScan (maxSkewSamples : ℕ) : List (Option ℚ) → ℕ → ℚ × ℤ → ℚ × ℤ
  | [], _, best => best
  | v :: rest, i, best =>
    vulkanScan maxSkewSamples rest (i + 1)
      (match v with
       | none => best
       | some x => if best.1 < x then (x, (i : ℤ) - (maxSkewSamples : ℤ)) else best)

/-- DoProcessWaveformUniformUnequalRateVulkan: GPU dispatch plus host scan.
Unlike the CPU paths, the scan starts from the local sentinel `(0, 0)` and
its result overwrites `(m_bestCorrelation, m_bestCorrelationOffset)`. -/
def DoProcessWaveformUniformUnequalRateVulkan (ppri psec : UniformAnalogWaveform)
    (maxSkewSamples : ℕ) : ℚ × ℤ :=
  vulkanScan maxSkewSamples (gpuCorrOut ppri psec maxSkewSamples) 0 (0, 0)

/-- Tag for the error conditions of one correlation trial.
`unsupportedRepresentation` models the `LogError("Mixed sparse and uniform
waveforms not implemented"); return;` branch of StartCorrelation;
`outOfBoundsAccess` marks a run that performed an out-of-bounds read
(undefined behaviour in the C++). -/
inductive CorrError where
  | unsupportedRepresentation
  | outOfBoundsAccess
  deriving DecidableEq

/-- The waveform data of one stream: a closed union of the two concrete
types StartCorrelation distinguishes with dynamic_cast. -/
inductive AnalogWaveformData where
  | uniform (w : UniformAnalogWaveform)
  | sparse (w : SparseAnalogWaveform)
  deriving DecidableEq

/-- The result-history part of the wizard:
`(m_bestCorrelation, m_bestCorrelationOffset)` plus the append-only
`m_skews` / `m_correlations` vectors. -/
structure SessionState where
  best : ℚ × ℤ
  m_skews : List ℤ
  m_correlations : List ℚ
  deriving DecidableEq

/-- Wizard construction (lines 76-81): best pair `(0, 0)`, empty history. -/
def initSession : SessionState :=
  ⟨constructionBest, [], []⟩

/-- Lines 550-557 of StartCorrelation: store the new best pair and append
`skew = m_bestCorrelationOffset * pri->m_timescale` and `m_bestCorrelation`
to the history. -/
def recordTrial (b : ℚ × ℤ) (priTimescale : ℤ) (st : SessionState) : SessionState :=
  ⟨b, st.m_skews ++ [b.2 * priTimescale], st.m_correlations ++ [b.1]⟩

/-- StartCorrelation (lines 493-557): dynamic_cast dispatch on the two
representations, Vulkan backend when `g_hasShaderInt64 && g_hasShaderFloat64`,
CPU fallback otherwise, error-and-return on a mixed pair (history untouched).
Returns the updated session and the error condition, if any. -/
def StartCorrelation (hasShaderInt64 hasShaderFloat64 : Bool) (maxSkewSamples : ℕ)
    (pri sec : AnalogWaveformData) (st : SessionState) : SessionState × Option CorrError :=
  match pri, sec with
  | .uniform upri, .uniform usec =>
    if hasShaderInt64 && hasShaderFloat64 then
      (recordTrial (DoProcessWaveformUniformUnequalRateVulkan upri usec maxSkewSamples)
        upri.m_timescale st, none)
    else
      match DoProcessWaveformUniformUnequalRate upri usec maxSkewSamples st.best with
      | none => (st, some .outOfBoundsAccess)
      | some b => (recordTrial b upri.m_timescale st, none)
  | .sparse spri, .sparse ssec =>
    match DoProcessWaveformSparse spri ssec maxSkewSamples st.best with
    | none => (st, some .outOfBoundsAccess)
    | some b => (recordTrial b spri.m_timescale st, none)
  | _, _ => (st, some .unsupportedRepresentation)

/-- Running a sequence of trials on the CPU backend (both shader-capability
flags false), as the multi-trial loop does: each trial hands the freshly
acquired pair to StartCorrelation. -/
def runSessionCPU (maxSkewSamples : ℕ)
    (trials : List (AnalogWaveformData × AnalogWaveformData)) : SessionState :=
  trials.foldl (fun st t => (StartCorrelation false false maxSkewSamples t.1 t.2 st).1)
    initSession

/-- The states of the main processing flow (STATE_WELCOME_* screens are
out of scope of the claims). -/
inductive WizardPhase where
  | STATE_ACQUIRE
  | STATE_CORRELATE
  | STATE_DONE
  deriving DecidableEq

/-- `const int nWaveforms = 10;` (line 340). -/
def nWaveforms : ℕ := 10

/-- What one tick of the control loop can observe on the primary stream:
the data-arrival signature `(m_startTimestamp, m_startFemtoseconds)` plus
the waveform pair that a correlation started now would consume. -/
structure TickData where
  m_startTimestamp : ℤ
  m_startFemtoseconds : ℤ
  pri : AnalogWaveformData
  sec : AnalogWaveformData
  deriving DecidableEq

/-- The whole per-session mutable state of the wizard that the claims
mention.  `armCount` counts the `m_group->Arm(TRIGGER_TYPE_SINGLE)` calls;
`errorCount` counts the trials on which StartCorrelation reported an error
(a ghost observer for the LogError branch / undefined behaviour). -/
structure ScopeDeskewWizardState where
  m_state : WizardPhase
  m_measureCycle : ℕ
  m_lastTriggerTimestamp : ℤ
  m_lastTriggerFs : ℤ
  session : SessionState
  armCount : ℕ
  errorCount : ℕ
  deriving DecidableEq

/-- Pressing Start on the last welcome screen (lines 252-275): the state
becomes STATE_ACQUIRE, the current data-arrival signature is recorded and
one single-shot acquisition is armed. -/
def startWizard (ts fs : ℤ) : ScopeDeskewWizardState :=
  ⟨.STATE_ACQUIRE, 0, ts, fs, initSession, 1, 0⟩

/-- DoMainProcessingFlow (lines 440-490), the per-tick state machine step:
* STATE_ACQUIRE: return unchanged if there is no data or the signature
  equals the stored one; otherwise store the new signature, run
  StartCorrelation, and move to STATE_CORRELATE.
* STATE_CORRELATE: increment m_measureCycle; if it reached nWaveforms go to
  STATE_DONE, otherwise arm another single-shot acquisition and go back to
  STATE_ACQUIRE.
* STATE_DONE: nothing happens (the switch has no case for it). -/
def DoMainProcessingFlow (hasShaderInt64 hasShaderFloat64 : Bool) (maxSkewSamples : ℕ)
    (w : ScopeDeskewWizardState) (inp : Option TickData) : ScopeDeskewWizardState :=
  match w.m_state with
  | .STATE_ACQUIRE =>
    match inp with
    | none => w
    | some data =>
      if w.m_lastTriggerTimestamp = data.m_startTimestamp ∧
          w.m_lastTriggerFs = data.m_startFemtoseconds then w
      else
        let res := StartCorrelation hasShaderInt64 hasShaderFloat64 maxSkewSamples
          data.pri data.sec w.session
        { w with
          m_lastTriggerTimestamp := data.m_startTimestamp
          m_lastTriggerFs := data.m_startFemtoseconds
          session := res.1
          errorCount := w.errorCount + (match res.2 with | none => 0 | some _ => 1)
          m_state := .STATE_CORRELATE }
  | .STATE_CORRELATE =>
    if w.m_measureCycle + 1 ≥ nWaveforms then
      { w with m_measureCycle := w.m_measureCycle + 1, m_state := .STATE_DONE }
    else
      { w with
        m_measureCycle := w.m_measureCycle + 1
        armCount := w.armCount + 1
        m_state := .STATE_ACQUIRE }
  | .STATE_DONE => w

/-- Iterating the control loop over a trace of tick observations. -/
def runTicks (hasShaderInt64 hasShaderFloat64 : Bool) (maxSkewSamples : ℕ)
    (w : ScopeDeskewWizardState) (trace : List (Option TickData)) : ScopeDeskewWizardState :=
  trace.foldl (DoMainProcessingFlow hasShaderInt64 hasShaderFloat64 maxSkewSamples) w

/-- Second, spec-following definition used only to compare against the
code on claim C4.  The spec says the Uniform secondary match is the
"direct index target / secondary.timescale (... exact index arithmetic, not
a search)"; this inner loop uses that direct index (stopping when it runs
off the end of the secondary waveform) in place of the cursor loop. -/
def uniformCorrLoopSpec (ppri psec : UniformAnalogWaveform) (deltaFs : ℤ) :
    ℕ → ℕ → ℚ → ℕ → Option (ℕ × ℚ)
  | _, n, corr, 0 => some (n, corr)
  | i, n, corr, rem + 1 =>
    let target : ℤ := (i : ℤ) * ppri.m_timescale + deltaFs
    if target < 0 then uniformCorrLoopSpec ppri psec deltaFs (i + 1) n corr rem
    else
      let idx : ℕ := (target / psec.m_timescale).toNat
      if idx ≥ psec.size then some (n, corr)
      else
        match ppri.m_samples.get? i, psec.m_samples.get? idx with
        | some a, some b =>
          uniformCorrLoopSpec ppri psec deltaFs (i + 1) (n + 1) (corr + a * b) rem
        | _, _ => none

/-- Spec-following per-candidate evaluation for claim C4 (direct division
instead of the cursor-advance loop). -/
def evalUniformCandidateSpec (ppri psec : UniformAnalogWaveform) (d : ℤ) : Option (ℕ × ℚ) :=
  uniformCorrLoopSpec ppri psec (uniformDeltaFs ppri psec d) 0 0 0 ppri.size

/-- Concrete primary waveform (timescale 10 fs) used as test input. -/
def exUniPri : UniformAnalogWaveform := ⟨10, 0, [0, 1]⟩

/-- Concrete secondary waveform (timescale 5 fs), slower rate than exUniPri. -/
def exUniSec : UniformAnalogWaveform := ⟨5, 0, [0, 20, 30]⟩

/-- One-sample uniform waveform, amplitude 1. -/
def exLowPri : UniformAnalogWaveform := ⟨1, 0, [1]⟩

/-- One-sample uniform waveform, amplitude 1. -/
def exLowSec : UniformAnalogWaveform := ⟨1, 0, [1]⟩

/-- Primary waveform for the no-overlap scenario. -/
def exNoOverlapPri : UniformAnalogWaveform := ⟨1, 0, [1]⟩

/-- Secondary waveform whose trigger phase (100 fs) pushes every candidate
target below zero for windows with maxSkewSamples ≤ 100. -/
def exNoOverlapSec : UniformAnalogWaveform := ⟨1, 100, [1]⟩

/-- Concrete sparse primary: trigger phase 5 fs. -/
def exSparsePri : SparseAnalogWaveform := ⟨1, 5, [0], [1], [1]⟩

/-- Concrete sparse secondary: trigger phase 3 fs. -/
def exSparseSec : SparseAnalogWaveform := ⟨1, 3, [0], [1], [1]⟩

/-- Empty sparse secondary waveform (zero samples). -/
def exEmptySparse : SparseAnalogWaveform := ⟨1, 0, [], [], []⟩

/-- Empty uniform secondary waveform (zero samples). -/
def exEmptyUniform : UniformAnalogWaveform := ⟨1, 0, []⟩

/-- A session state as left by an earlier trial that recorded best pair
`(5, 7)` with skew 7. -/
def exPriorSession : SessionState := ⟨(5, 7), [7], [5]⟩

/-- A tick observation carrying the exLow uniform pair with data-arrival
signature `(k, 0)`. -/
def exTick (k : ℤ) : Option TickData :=
  some ⟨k, 0, .uniform exLowPri, .uniform exLowSec⟩

/-- A 20-tick trace: ten fresh-data acquisitions interleaved with the ten
correlate ticks (whose input is ignored). -/
def exTrace : List (Option TickData) :=
  [exTick 1, none, exTick 2, none, exTick 3, none, exTick 4, none, exTick 5, none,
   exTick 6, none, exTick 7, none, exTick 8, none, exTick 9, none, exTick 10, none]

/-- Invariant tying the history length to the state-machine phase and the
measurement counter, conditional on no trial having errored. -/
def wizardInv (w : ScopeDeskewWizardState) : Prop :=
  w.errorCount = 0 →
    w.session.m_correlations.length = w.session.m_skews.length ∧
    (match w.m_state with
     | .STATE_ACQUIRE =>
       w.session.m_skews.length = w.m_measureCycle ∧ w.m_measureCycle < nWaveforms
     | .STATE_CORRELATE =>
       w.session.m_skews.length = w.m_measureCycle + 1 ∧ w.m_measureCycle < nWaveforms
     | .STATE_DONE =>
       w.session.m_skews.length = nWaveforms ∧ w.m_measureCycle = nWaveforms)

/-- Invariant of the CPU-backend session: the recorded correlations are
monotone, all bounded by the running best, and the last recorded
correlation is exactly the running best. -/
def sessionInv (st : SessionState) : Prop :=
  List.Chain' (· ≤ ·) st.m_correlations ∧
  (∀ x ∈ st.m_correlations, x ≤ st.best.1) ∧
  (∀ c, st.m_correlations.getLast? = some c → c = st.best.1)


theorem runCandidates_cons_some (eval : ℤ → Option (ℕ × ℚ)) (d : ℤ) (ds : List ℤ)
    (b : ℚ × ℤ) (rr : ℕ × ℚ) (he : eval d = some rr) :
    runCandidates eval (d :: ds) b = runCandidates eval ds (updateBest b d (normCorr rr)) := by
  rw [runCandidates, he]

theorem runCandidates_cons_none (eval : ℤ → Option (ℕ × ℚ)) (d : ℤ) (ds : List ℤ)
    (b : ℚ × ℤ) (he : eval d = none) :
    runCandidates eval (d :: ds) b = none := by
  rw [runCandidates, he]

theorem updateBest_fst_le (best : ℚ × ℤ) (d : ℤ) (nc : Option ℚ) :
    best.1 ≤ (updateBest best d nc).1 := by
  cases nc with
  | none => exact le_refl _
  | some v =>
    by_cases h : best.1 < v
    · simp [updateBest, h]
      exact le_of_lt h
    · simp [updateBest, h]

theorem updateBest_zero (b : ℚ × ℤ) (d : ℤ) (q : ℚ) :
    updateBest b d (normCorr (0, q)) = b := by
  simp [updateBest, normCorr]

theorem updateBest_fst_ge (b : ℚ × ℤ) (d : ℤ) (k : ℕ) (q : ℚ) (hk : k ≠ 0) :
    q / (k : ℚ) ≤ (updateBest b d (normCorr (k, q))).1 := by
  by_cases hlt : b.1 < q / (k : ℚ)
  · simp [updateBest, normCorr, hk, hlt]
  · simp only [updateBest, normCorr, hk, if_false]
    simp only [ite_false, hlt]
    exact le_of_not_lt hlt

theorem runCandidates_mono (eval : ℤ → Option (ℕ × ℚ)) :
    ∀ (ds : List ℤ) (b r : ℚ × ℤ), runCandidates eval ds b = some r → b.1 ≤ r.1 := by
  intro ds
  induction ds with
  | nil =>
    intro b r h
    simp [runCandidates] at h
    rw [h]
  | cons d ds ih =>
    intro b r h
    cases he : eval d with
    | none => rw [runCandidates_cons_none eval d ds b he] at h; exact absurd h (by simp)
    | some rr =>
      rw [runCandidates_cons_some eval d ds b rr he] at h
      exact le_trans (updateBest_fst_le b d (normCorr rr)) (ih _ r h)

theorem runCandidates_init_or_winner (eval : ℤ → Option (ℕ × ℚ)) :
    ∀ (ds : List ℤ) (b r : ℚ × ℤ), runCandidates eval ds b = some r →
      r = b ∨ ∃ d ∈ ds, ∃ k q, eval d = some (k, q) ∧ k ≠ 0 ∧ r = (q / (k : ℚ), d) := by
  intro ds
  induction ds with
  | nil =>
    intro b r h
    simp [runCandidates] at h
    exact Or.inl h.symm
  | cons d ds ih =>
    intro b r h
    cases he : eval d with
    | none => rw [runCandidates_cons_none eval d ds b he] at h; exact absurd h (by simp)
    | some rr =>
      rw [runCandidates_cons_some eval d ds b rr he] at h
      rcases ih _ r h with hr | ⟨d', hd', k, q, hk⟩
      · obtain ⟨k0, q0⟩ := rr
        by_cases hz : k0 = 0
        · left
          rw [hr, hz]
          exact updateBest_zero b d q0
        · by_cases hlt : b.1 < q0 / (k0 : ℚ)
          · right
            refine ⟨d, List.mem_cons_self d ds, k0, q0, he, hz, ?_⟩
            rw [hr]
            simp [updateBest, normCorr, hz, hlt]
          · left
            rw [hr]
            simp [updateBest, normCorr, hz, hlt]
      · exact Or.inr ⟨d', List.mem_cons_of_mem d hd', k, q, hk⟩

theorem runCandidates_dominates (eval : ℤ → Option (ℕ × ℚ)) :
    ∀ (ds : List ℤ) (b r : ℚ × ℤ), runCandidates eval ds b = some r →
      ∀ d ∈ ds, ∀ k q, eval d = some (k, q) → k ≠ 0 → q / (k : ℚ) ≤ r.1 := by
  intro ds
  induction ds with
  | nil =>
    intro b r _ d hd
    exact absurd hd (List.not_mem_nil d)
  | cons d0 ds ih =>
    intro b r h d hd k q he hk
    cases he0 : eval d0 with
    | none => rw [runCandidates_cons_none eval d0 ds b he0] at h; exact absurd h (by simp)
    | some rr =>
      rw [runCandidates_cons_some eval d0 ds b rr he0] at h
      rcases List.mem_cons.mp hd with rfl | hmem
      · rw [he0] at he
        have hrr : rr = (k, q) := by injection he
        rw [hrr] at h
        exact le_trans (updateBest_fst_ge b d k q hk) (runCandidates_mono eval ds _ r h)
      · exact ih _ r h d hmem k q he hk

theorem runCandidates_no_update (eval : ℤ → Option (ℕ × ℚ)) :
    ∀ (ds : List ℤ) (b r : ℚ × ℤ),
      (∀ d ∈ ds, ∀ k q, eval d = some (k, q) → k ≠ 0 → q / (k : ℚ) ≤ b.1) →
      runCandidates eval ds b = some r → r = b := by
  intro ds
  induction ds with
  | nil =>
    intro b r _ h
    simp [runCandidates] at h
    exact h.symm
  | cons d ds ih =>
    intro b r hdom h
    cases he : eval d with
    | none => rw [runCandidates_cons_none eval d ds b he] at h; exact absurd h (by simp)
    | some rr =>
      rw [runCandidates_cons_some eval d ds b rr he] at h
      have hb : updateBest b d (normCorr rr) = b := by
        obtain ⟨k0, q0⟩ := rr
        by_cases hz : k0 = 0
        · rw [hz]; exact updateBest_zero b d q0
        · have := hdom d (List.mem_cons_self d ds) k0 q0 he hz
          simp [updateBest, normCorr, hz, not_lt_of_le this]
      rw [hb] at h
      exact ih b r (fun d' hd' => hdom d' (List.mem_cons_of_mem d hd')) h

theorem runCandidates_none_iff (eval : ℤ → Option (ℕ × ℚ)) :
    ∀ (ds : List ℤ) (b : ℚ × ℤ),
      runCandidates eval ds b = none ↔ ∃ d ∈ ds, eval d = none := by
  intro ds
  induction ds with
  | nil => intro b; simp [runCandidates]
  | cons d ds ih =>
    intro b
    cases he : eval d with
    | none => simp [runCandidates_cons_none eval d ds b he, he]
    | some rr => simp [runCandidates_cons_some eval d ds b rr he, he, ih]

theorem runCandidates_skip_zero (eval : ℤ → Option (ℕ × ℚ)) :
    ∀ (ds : List ℤ) (b : ℚ × ℤ),
      (∀ d ∈ ds, ∃ q, eval d = some (0, q)) → runCandidates eval ds b = some b := by
  intro ds
  induction ds with
  | nil => intro b _; simp [runCandidates]
  | cons d ds ih =>
    intro b hz
    obtain ⟨q, hq⟩ := hz d (List.mem_cons_self d ds)
    rw [runCandidates_cons_some eval d ds b (0, q) hq, updateBest_zero b d q]
    exact ih b (fun d' hd' => hz d' (List.mem_cons_of_mem d hd'))

theorem runCandidates_foldl (eval : ℤ → Option (ℕ × ℚ)) :
    ∀ (ds : List ℤ) (b r : ℚ × ℤ), runCandidates eval ds b = some r →
      ds.foldl (fun acc d => updateBest acc d (candNc eval d)) b = r := by
  intro ds
  induction ds with
  | nil =>
    intro b r h
    simp [runCandidates] at h
    simpa using h
  | cons d ds ih =>
    intro b r h
    cases he : eval d with
    | none => rw [runCandidates_cons_none eval d ds b he] at h; exact absurd h (by simp)
    | some rr =>
      rw [runCandidates_cons_some eval d ds b rr he] at h
      simp only [List.foldl_cons]
      have hc : candNc eval d = normCorr rr := by simp [candNc, he]
      rw [hc]
      exact ih _ r h

theorem vulkanScan_cons_none (m : ℕ) (rest : List (Option ℚ)) (i : ℕ) (b : ℚ × ℤ) :
    vulkanScan m (none :: rest) i b = vulkanScan m rest (i + 1) b := rfl

theorem vulkanScan_cons_some (m : ℕ) (x : ℚ) (rest : List (Option ℚ)) (i : ℕ) (b : ℚ × ℤ) :
    vulkanScan m (some x :: rest) i b =
      vulkanScan m rest (i + 1) (if b.1 < x then (x, (i : ℤ) - (m : ℤ)) else b) := rfl

theorem vulkanScan_all_none (m : ℕ) :
    ∀ (L : List (Option ℚ)) (i : ℕ) (b : ℚ × ℤ),
      (∀ v ∈ L, v = none) → vulkanScan m L i b = b := by
  intro L
  induction L with
  | nil => intro i b _; rfl
  | cons v rest ih =>
    intro i b hnone
    have hv : v = none := hnone v (List.mem_cons_self v rest)
    rw [hv, vulkanScan_cons_none]
    exact ih (i + 1) b (fun v' hv' => hnone v' (List.mem_cons_of_mem v hv'))

theorem vulkanScan_eq_foldl (m : ℕ) (f : ℤ → Option ℚ) :
    ∀ (n i : ℕ) (b : ℚ × ℤ),
      vulkanScan m (((List.range' i n).map (offsetOfIndex m)).map f) i b =
        ((List.range' i n).map (offsetOfIndex m)).foldl
          (fun acc d => updateBest acc d (f d)) b := by
  intro n
  induction n with
  | zero => intro i b; rfl
  | succ n ih =>
    intro i b
    rw [List.range'_succ]
    simp only [List.map_cons, List.foldl_cons]
    have hstep :
        ∀ v : Option ℚ, vulkanScan m (v :: ((List.range' (i + 1) n).map (offsetOfIndex m)).map f) i b =
          vulkanScan m (((List.range' (i + 1) n).map (offsetOfIndex m)).map f) (i + 1)
            (updateBest b (offsetOfIndex m i) v) := by
      intro v
      cases v with
      | none => rw [vulkanScan_cons_none]; rfl
      | some x => rw [vulkanScan_cons_some]; rfl
    rw [hstep (f (offsetOfIndex m i))]
    exact ih (i + 1) _

theorem correlationOffsets_eq_range' (m : ℕ) :
    correlationOffsets m = (List.range' 0 (2 * m)).map (offsetOfIndex m) := by
  rw [correlationOffsets, List.range_eq_range']

theorem vulkan_eq_cpu_from_sentinel (ppri psec : UniformAnalogWaveform) (m : ℕ)
    (r : ℚ × ℤ) (h : DoProcessWaveformUniformUnequalRate ppri psec m (0, 0) = some r) :
    DoProcessWaveformUniformUnequalRateVulkan ppri psec m = r := by
  have hf := runCandidates_foldl (evalUniformCandidate ppri psec) (correlationOffsets m)
    (0, 0) r h
  rw [DoProcessWaveformUniformUnequalRateVulkan, gpuCorrOut, correlationOffsets_eq_range']
  rw [vulkanScan_eq_foldl m (candNc (evalUniformCandidate ppri psec)) (2 * m) 0 (0, 0)]
  rw [correlationOffsets_eq_range'] at hf
  exact hf

theorem advanceGuard_iff (c t : ℤ) (hc : 0 < c) (ht : 0 ≤ t) (s : ℕ) :
    (((s : ℤ) + 1) * c < t) ↔ s < (t - 1).toNat / c.toNat := by
  have hct : 0 < c.toNat := by omega
  rw [Nat.lt_iff_add_one_le, Nat.le_div_iff_mul_le hct]
  have hA : ((s : ℤ) + 1) * c = (((s + 1) * c.toNat : ℕ) : ℤ) := by
    push_cast [Int.toNat_of_nonneg hc.le]
    ring
  have hpos : 0 < (s + 1) * c.toNat := Nat.mul_pos (Nat.succ_pos s) hct
  rw [hA]
  omega

theorem advanceUniformAux_le (c t : ℤ) :
    ∀ (rem s : ℕ) (s' : ℕ), advanceUniformAux c t s rem = some s' → s' ≤ s + rem := by
  intro rem
  induction rem with
  | zero =>
    intro s s' h
    rw [advanceUniformAux] at h
    by_cases hg : ((s : ℤ) + 1) * c < t
    · simp [hg] at h
    · simp [hg] at h
      omega
  | succ rem ih =>
    intro s s' h
    rw [advanceUniformAux] at h
    by_cases hg : ((s : ℤ) + 1) * c < t
    · rw [if_pos hg] at h
      have := ih (s + 1) s' h
      omega
    · rw [if_neg hg] at h
      injection h with h'
      omega

theorem advanceUniformAux_spec (c t : ℤ) (hc : 0 < c) (ht : 0 ≤ t) :
    ∀ (rem s : ℕ), advanceUniformAux c t s rem =
      if (t - 1).toNat / c.toNat ≤ s then some s
      else if (t - 1).toNat / c.toNat ≤ s + rem then some ((t - 1).toNat / c.toNat)
      else none := by
  intro rem
  induction rem with
  | zero =>
    intro s
    rw [advanceUniformAux]
    by_cases hg : ((s : ℤ) + 1) * c < t
    · have hq : s < (t - 1).toNat / c.toNat := (advanceGuard_iff c t hc ht s).mp hg
      rw [if_pos hg, if_neg (by omega), if_neg (by omega)]
    · have hq : ¬ s < (t - 1).toNat / c.toNat :=
        fun hlt => hg ((advanceGuard_iff c t hc ht s).mpr hlt)
      rw [if_neg hg, if_pos (by omega)]
  | succ rem ih =>
    intro s
    rw [advanceUniformAux]
    by_cases hg : ((s : ℤ) + 1) * c < t
    · have hq : s < (t - 1).toNat / c.toNat := (advanceGuard_iff c t hc ht s).mp hg
      rw [if_pos hg, ih (s + 1), if_neg (by omega : ¬ (t - 1).toNat / c.toNat ≤ s)]
      by_cases h1 : (t - 1).toNat / c.toNat ≤ s + 1
      · have hqe : (t - 1).toNat / c.toNat = s + 1 := by omega
        rw [if_pos h1, if_pos (by omega), hqe]
      · rw [if_neg h1]
        by_cases h3 : (t - 1).toNat / c.toNat ≤ s + 1 + rem
        · rw [if_pos h3, if_pos (by omega)]
        · rw [if_neg h3, if_neg (by omega)]
    · have hq : ¬ s < (t - 1).toNat / c.toNat :=
        fun hlt => hg ((advanceGuard_iff c t hc ht s).mpr hlt)
      rw [if_neg hg, if_pos (by omega)]

theorem advanceUniform_spec (c : ℤ) (slen : ℕ) (t : ℤ) (s : ℕ)
    (hc : 0 < c) (ht : 0 ≤ t) (hs : s < slen) :
    advanceUniform c slen t s =
      if max s ((t - 1).toNat / c.toNat) < slen
      then some (max s ((t - 1).toNat / c.toNat)) else none := by
  rw [advanceUniform, advanceUniformAux_spec c t hc ht]
  by_cases h1 : (t - 1).toNat / c.toNat ≤ s
  · have hm : max s ((t - 1).toNat / c.toNat) = s := by omega
    rw [if_pos h1, hm, if_pos (by omega)]
  · rw [if_neg h1]
    by_cases h2 : (t - 1).toNat / c.toNat ≤ s + (slen - (s + 1))
    · have hm : max s ((t - 1).toNat / c.toNat) = (t - 1).toNat / c.toNat := by omega
      rw [hm, if_pos h2, if_pos (by omega)]
    · have hm : max s ((t - 1).toNat / c.toNat) = (t - 1).toNat / c.toNat := by omega
      rw [hm, if_neg h2, if_neg (by omega)]

theorem advanceUniform_lt (c : ℤ) (slen : ℕ) (t : ℤ) (s s' : ℕ) (hs : s < slen)
    (h : advanceUniform c slen t s = some s') : s' < slen := by
  have := advanceUniformAux_le c t (slen - (s + 1)) s s' h
  omega

theorem uniformCorrLoop_zero (ppri psec : UniformAnalogWaveform) (deltaFs : ℤ)
    (i s n : ℕ) (corr : ℚ) :
    uniformCorrLoop ppri psec deltaFs i s n corr 0 = some (n, corr) := by
  rw [uniformCorrLoop]

theorem uniformCorrLoop_succ (ppri psec : UniformAnalogWaveform) (deltaFs : ℤ)
    (i s n : ℕ) (corr : ℚ) (rem : ℕ) :
    uniformCorrLoop ppri psec deltaFs i s n corr (rem + 1) =
      if ((i : ℤ) * ppri.m_timescale + deltaFs) < 0 then
        uniformCorrLoop ppri psec deltaFs (i + 1) s n corr rem
      else
        match advanceUniform psec.m_timescale psec.size
            ((i : ℤ) * ppri.m_timescale + deltaFs) s with
        | none => some (n, corr)
        | some s' =>
          match ppri.m_samples.get? i, psec.m_samples.get? s' with
          | some a, some b =>
            uniformCorrLoop ppri psec deltaFs (i + 1) s' (n + 1) (corr + a * b) rem
          | _, _ => none := by
  rw [uniformCorrLoop]

theorem sparseCorrLoop_zero (ppri psec : SparseAnalogWaveform) (deltaFs : ℤ)
    (i s n : ℕ) (corr : ℚ) :
    sparseCorrLoop ppri psec deltaFs i s n corr 0 = some (n, corr) := by
  rw [sparseCorrLoop]

theorem sparseCorrLoop_succ (ppri psec : SparseAnalogWaveform) (deltaFs : ℤ)
    (i s n : ℕ) (corr : ℚ) (rem : ℕ) (oi : ℤ) (a : ℚ)
    (hoi : ppri.m_offsets.get? i = some oi) (hai : ppri.m_samples.get? i = some a) :
    sparseCorrLoop ppri psec deltaFs i s n corr (rem + 1) =
      if sparseStart ppri oi + deltaFs < 0 then
        sparseCorrLoop ppri psec deltaFs (i + 1) s n corr rem
      else
        match advanceSparse psec (sparseStart ppri oi + deltaFs) s with
        | none => none
        | some none => some (n, corr)
        | some (some s') =>
          match psec.m_samples.get? s' with
          | some b => sparseCorrLoop ppri psec deltaFs (i + 1) s' (n + 1) (corr + a * b) rem
          | none => none := by
  rw [sparseCorrLoop, hoi, hai]

theorem uniformCorrLoop_ne_none (ppri psec : UniformAnalogWaveform) (deltaFs : ℤ) :
    ∀ (rem i s : ℕ) (n : ℕ) (corr : ℚ), i + rem ≤ ppri.size → s < psec.size →
      uniformCorrLoop ppri psec deltaFs i s n corr rem ≠ none := by
  intro rem
  induction rem with
  | zero =>
    intro i s n corr _ _
    rw [uniformCorrLoop_zero]
    simp
  | succ rem ih =>
    intro i s n corr hi hs
    have hszp : ppri.size = ppri.m_samples.length := rfl
    have hszs : psec.size = psec.m_samples.length := rfl
    rw [uniformCorrLoop_succ]
    by_cases htgt : ((i : ℤ) * ppri.m_timescale + deltaFs) < 0
    · rw [if_pos htgt]
      exact ih (i + 1) s n corr (by omega) hs
    · rw [if_neg htgt]
      split
      · simp
      · rename_i s' hadv
        have hs' : s' < psec.size :=
          advanceUniform_lt psec.m_timescale psec.size _ s s' hs hadv
        split
        · rename_i a b ha hb
          exact ih (i + 1) s' (n + 1) (corr + a * b) (by omega) hs'
        · rename_i hcontra
          have ha' : ppri.m_samples.get? i = some (ppri.m_samples.get ⟨i, by omega⟩) :=
            List.get?_eq_get (by omega)
          have hb' : psec.m_samples.get? s' = some (psec.m_samples.get ⟨s', by omega⟩) :=
            List.get?_eq_get (by omega)
          exact (hcontra _ _ ha' hb').elim

theorem evalUniformCandidate_ne_none (ppri psec : UniformAnalogWaveform) (d : ℤ)
    (hsec : 1 ≤ psec.size) : evalUniformCandidate ppri psec d ≠ none := by
  rw [evalUniformCandidate]
  exact uniformCorrLoop_ne_none ppri psec (uniformDeltaFs ppri psec d)
    ppri.size 0 0 0 0 (by omega) (by omega)

theorem advanceSparseAux_zero_eq (psec : SparseAnalogWaveform) (t : ℤ) (s : ℕ)
    (o du : ℤ) (ho : psec.m_offsets.get? s = some o)
    (hd : psec.m_durations.get? s = some du) :
    advanceSparseAux psec t s 0 =
      if sparseSecEnd psec o du < t then some none else some (some s) := by
  rw [advanceSparseAux, ho, hd]

theorem advanceSparseAux_succ_eq (psec : SparseAnalogWaveform) (t : ℤ) (s rem : ℕ)
    (o du : ℤ) (ho : psec.m_offsets.get? s = some o)
    (hd : psec.m_durations.get? s = some du) :
    advanceSparseAux psec t s (rem + 1) =
      if sparseSecEnd psec o du < t then advanceSparseAux psec t (s + 1) rem
      else some (some s) := by
  rw [advanceSparseAux, ho, hd]

theorem advanceSparseAux_safe (psec : SparseAnalogWaveform) (t : ℤ)
    (hdu : psec.size ≤ psec.m_durations.length) :
    ∀ (rem s : ℕ), s + rem < psec.size →
      advanceSparseAux psec t s rem ≠ none ∧
      ∀ s', advanceSparseAux psec t s rem = some (some s') → s' ≤ s + rem := by
  have hsz : psec.size = psec.m_offsets.length := rfl
  intro rem
  induction rem with
  | zero =>
    intro s hs
    have ho : psec.m_offsets.get? s = some (psec.m_offsets.get ⟨s, by omega⟩) :=
      List.get?_eq_get (by omega)
    have hd : psec.m_durations.get? s = some (psec.m_durations.get ⟨s, by omega⟩) :=
      List.get?_eq_get (by omega)
    rw [advanceSparseAux_zero_eq psec t s _ _ ho hd]
    by_cases hg : sparseSecEnd psec (psec.m_offsets.get ⟨s, by omega⟩)
        (psec.m_durations.get ⟨s, by omega⟩) < t
    · rw [if_pos hg]
      exact ⟨by simp, by simp⟩
    · rw [if_neg hg]
      refine ⟨by simp, ?_⟩
      intro s' h
      simp at h
      omega
  | succ rem ih =>
    intro s hs
    have ho : psec.m_offsets.get? s = some (psec.m_offsets.get ⟨s, by omega⟩) :=
      List.get?_eq_get (by omega)
    have hd : psec.m_durations.get? s = some (psec.m_durations.get ⟨s, by omega⟩) :=
      List.get?_eq_get (by omega)
    rw [advanceSparseAux_succ_eq psec t s rem _ _ ho hd]
    by_cases hg : sparseSecEnd psec (psec.m_offsets.get ⟨s, by omega⟩)
        (psec.m_durations.get ⟨s, by omega⟩) < t
    · rw [if_pos hg]
      obtain ⟨h1, h2⟩ := ih (s + 1) (by omega)
      refine ⟨h1, ?_⟩
      intro s' h
      have := h2 s' h
      omega
    · rw [if_neg hg]
      refine ⟨by simp, ?_⟩
      intro s' h
      simp at h
      omega

theorem advanceSparse_safe (psec : SparseAnalogWaveform) (t : ℤ) (s : ℕ)
    (hdu : psec.size ≤ psec.m_durations.length) (hs : s < psec.size) :
    advanceSparse psec t s ≠ none ∧
    ∀ s', advanceSparse psec t s = some (some s') → s' < psec.size := by
  obtain ⟨h1, h2⟩ := advanceSparseAux_safe psec t hdu (psec.size - (s + 1)) s (by omega)
  rw [advanceSparse]
  refine ⟨h1, ?_⟩
  intro s' h
  have := h2 s' h
  omega

theorem sparseCorrLoop_ne_none (ppri psec : SparseAnalogWaveform) (deltaFs : ℤ)
    (hps : ppri.size ≤ ppri.m_samples.length)
    (hdu : psec.size ≤ psec.m_durations.length)
    (hss : psec.size ≤ psec.m_samples.length) :
    ∀ (rem i s : ℕ) (n : ℕ) (corr : ℚ), i + rem ≤ ppri.size → s < psec.size →
      sparseCorrLoop ppri psec deltaFs i s n corr rem ≠ none := by
  have hszp : ppri.size = ppri.m_offsets.length := rfl
  have hszs : psec.size = psec.m_offsets.length := rfl
  intro rem
  induction rem with
  | zero =>
    intro i s n corr _ _
    rw [sparseCorrLoop_zero]
    simp
  | succ rem ih =>
    intro i s n corr hi hs
    have hoi : ppri.m_offsets.get? i = some (ppri.m_offsets.get ⟨i, by omega⟩) :=
      List.get?_eq_get (by omega)
    have hai : ppri.m_samples.get? i = some (ppri.m_samples.get ⟨i, by omega⟩) :=
      List.get?_eq_get (by omega)
    rw [sparseCorrLoop_succ ppri psec deltaFs i s n corr rem _ _ hoi hai]
    by_cases htgt : sparseStart ppri (ppri.m_offsets.get ⟨i, by omega⟩) + deltaFs < 0
    · rw [if_pos htgt]
      exact ih (i + 1) s n corr (by omega) hs
    · rw [if_neg htgt]
      obtain ⟨h1, h2⟩ := advanceSparse_safe psec
        (sparseStart ppri (ppri.m_offsets.get ⟨i, by omega⟩) + deltaFs) s hdu hs
      split
      · rename_i hadv
        exact absurd hadv h1
      · simp
      · rename_i s' hadv
        have hs' : s' < psec.size := h2 s' hadv
        split
        · rename_i b hb
          exact ih (i + 1) s' (n + 1) (corr + ppri.m_samples.get ⟨i, by omega⟩ * b)
            (by omega) hs'
        · rename_i hb
          have hbs : psec.m_samples.get? s' = some (psec.m_samples.get ⟨s', by omega⟩) :=
            List.get?_eq_get (by omega)
          rw [hbs] at hb
          simp at hb

theorem evalSparseCandidate_ne_none (ppri psec : SparseAnalogWaveform) (d : ℤ)
    (hps : ppri.size ≤ ppri.m_samples.length)
    (hdu : psec.size ≤ psec.m_durations.length)
    (hss : psec.size ≤ psec.m_samples.length)
    (hsec : 1 ≤ psec.size) : evalSparseCandidate ppri psec d ≠ none := by
  rw [evalSparseCandidate]
  exact sparseCorrLoop_ne_none ppri psec (sparseDeltaFs ppri d) hps hdu hss
    ppri.size 0 0 0 0 (by omega) (by omega)

theorem StartCorrelation_uniform_eq (hI hF : Bool) (m : ℕ)
    (up us : UniformAnalogWaveform) (st : SessionState) :
    StartCorrelation hI hF m (.uniform up) (.uniform us) st =
      if hI && hF then
        (recordTrial (DoProcessWaveformUniformUnequalRateVulkan up us m) up.m_timescale st,
          none)
      else
        match DoProcessWaveformUniformUnequalRate up us m st.best with
        | none => (st, some .outOfBoundsAccess)
        | some b => (recordTrial b up.m_timescale st, none) := by
  rw [StartCorrelation]

theorem StartCorrelation_sparse_eq (hI hF : Bool) (m : ℕ)
    (sp ss : SparseAnalogWaveform) (st : SessionState) :
    StartCorrelation hI hF m (.sparse sp) (.sparse ss) st =
      match DoProcessWaveformSparse sp ss m st.best with
      | none => (st, some .outOfBoundsAccess)
      | some b => (recordTrial b sp.m_timescale st, none) := by
  rw [StartCorrelation]

theorem StartCorrelation_mix_us (hI hF : Bool) (m : ℕ)
    (up : UniformAnalogWaveform) (ss : SparseAnalogWaveform) (st : SessionState) :
    StartCorrelation hI hF m (.uniform up) (.sparse ss) st =
      (st, some .unsupportedRepresentation) := rfl

theorem StartCorrelation_mix_su (hI hF : Bool) (m : ℕ)
    (sp : SparseAnalogWaveform) (us : UniformAnalogWaveform) (st : SessionState) :
    StartCorrelation hI hF m (.sparse sp) (.uniform us) st =
      (st, some .unsupportedRepresentation) := rfl

theorem StartCorrelation_record (hI hF : Bool) (m : ℕ)
    (pri sec : AnalogWaveformData) (st : SessionState)
    (h : (StartCorrelation hI hF m pri sec st).2 = none) :
    ∃ b ts, (StartCorrelation hI hF m pri sec st).1 = recordTrial b ts st := by
  cases pri with
  | uniform up =>
    cases sec with
    | uniform us =>
      rw [StartCorrelation_uniform_eq] at h ⊢
      by_cases hcap : (hI && hF) = true
      · rw [if_pos hcap]
        exact ⟨_, _, rfl⟩
      · rw [if_neg hcap] at h ⊢
        cases hrun : DoProcessWaveformUniformUnequalRate up us m st.best with
        | none => rw [hrun] at h; exact absurd h (Option.some_ne_none _)
        | some b => exact ⟨b, up.m_timescale, rfl⟩
    | sparse ss =>
      rw [StartCorrelation_mix_us] at h
      simp at h
  | sparse sp =>
    cases sec with
    | uniform us =>
      rw [StartCorrelation_mix_su] at h
      simp at h
    | sparse ss =>
      rw [StartCorrelation_sparse_eq] at h ⊢
      cases hrun : DoProcessWaveformSparse sp ss m st.best with
      | none => rw [hrun] at h; exact absurd h (Option.some_ne_none _)
      | some b => exact ⟨b, sp.m_timescale, rfl⟩

theorem recordTrial_skews_len (b : ℚ × ℤ) (ts : ℤ) (st : SessionState) :
    (recordTrial b ts st).m_skews.length = st.m_skews.length + 1 := by
  rw [recordTrial]
  simp

theorem recordTrial_corrs_len (b : ℚ × ℤ) (ts : ℤ) (st : SessionState) :
    (recordTrial b ts st).m_correlations.length = st.m_correlations.length + 1 := by
  rw [recordTrial]
  simp

theorem sessionInv_record (st : SessionState) (b : ℚ × ℤ) (ts : ℤ)
    (hmono : st.best.1 ≤ b.1) (h : sessionInv st) : sessionInv (recordTrial b ts st) := by
  obtain ⟨hch, hub, hlast⟩ := h
  refine ⟨?_, ?_, ?_⟩
  · show List.Chain' (· ≤ ·) (st.m_correlations ++ [b.1])
    rw [List.chain'_append]
    refine ⟨hch, List.chain'_singleton _, ?_⟩
    intro x hx y hy
    simp at hy
    rw [← hy]
    exact le_trans (hub x (List.mem_of_mem_getLast? hx)) hmono
  · intro x hx
    show x ≤ b.1
    rcases List.mem_append.mp hx with hx' | hx'
    · exact le_trans (hub x hx') hmono
    · simp at hx'
      rw [hx']
  · intro c hc
    show c = b.1
    rw [recordTrial] at hc
    simp only at hc
    rw [List.getLast?_concat] at hc
    injection hc with hc'
    exact hc'.symm

theorem sessionInv_init : sessionInv initSession := by
  refine ⟨List.chain'_nil, ?_, ?_⟩
  · intro x hx
    simp [initSession] at hx
  · intro c hc
    simp [initSession] at hc

theorem sessionInv_step (m : ℕ) (pri sec : AnalogWaveformData) (st : SessionState)
    (h : sessionInv st) : sessionInv (StartCorrelation false false m pri sec st).1 := by
  cases pri with
  | uniform up =>
    cases sec with
    | uniform us =>
      rw [StartCorrelation_uniform_eq]
      rw [if_neg (by simp)]
      cases hrun : DoProcessWaveformUniformUnequalRate up us m st.best with
      | none => exact h
      | some b =>
        exact sessionInv_record st b up.m_timescale
          (runCandidates_mono _ _ _ _ hrun) h
    | sparse ss =>
      rw [StartCorrelation_mix_us]
      exact h
  | sparse sp =>
    cases sec with
    | uniform us =>
      rw [StartCorrelation_mix_su]
      exact h
    | sparse ss =>
      rw [StartCorrelation_sparse_eq]
      cases hrun : DoProcessWaveformSparse sp ss m st.best with
      | none => exact h
      | some b =>
        exact sessionInv_record st b sp.m_timescale
          (runCandidates_mono _ _ _ _ hrun) h

theorem runSessionCPU_inv (m : ℕ) (trials : List (AnalogWaveformData × AnalogWaveformData)) :
    sessionInv (runSessionCPU m trials) := by
  rw [runSessionCPU]
  have aux : ∀ (ts : List (AnalogWaveformData × AnalogWaveformData)) (st : SessionState),
      sessionInv st →
      sessionInv (ts.foldl (fun st t => (StartCorrelation false false m t.1 t.2 st).1) st) := by
    intro ts
    induction ts with
    | nil => intro st h; exact h
    | cons t ts ih =>
      intro st h
      exact ih _ (sessionInv_step m t.1 t.2 st h)
  exact aux trials initSession sessionInv_init

theorem flow_done (hI hF : Bool) (m : ℕ) (w : ScopeDeskewWizardState)
    (inp : Option TickData) (h : w.m_state = .STATE_DONE) :
    DoMainProcessingFlow hI hF m w inp = w := by
  rw [DoMainProcessingFlow.eq_def, h]

theorem flow_acquire_none (hI hF : Bool) (m : ℕ) (w : ScopeDeskewWizardState)
    (h : w.m_state = .STATE_ACQUIRE) :
    DoMainProcessingFlow hI hF m w none = w := by
  rw [DoMainProcessingFlow, h]

theorem flow_acquire_some (hI hF : Bool) (m : ℕ) (w : ScopeDeskewWizardState)
    (data : TickData) (h : w.m_state = .STATE_ACQUIRE) :
    DoMainProcessingFlow hI hF m w (some data) =
      if w.m_lastTriggerTimestamp = data.m_startTimestamp ∧
          w.m_lastTriggerFs = data.m_startFemtoseconds then w
      else
        { w with
          m_lastTriggerTimestamp := data.m_startTimestamp
          m_lastTriggerFs := data.m_startFemtoseconds
          session := (StartCorrelation hI hF m data.pri data.sec w.session).1
          errorCount := w.errorCount +
            (match (StartCorrelation hI hF m data.pri data.sec w.session).2 with
             | none => 0
             | some _ => 1)
          m_state := .STATE_CORRELATE } := by
  rw [DoMainProcessingFlow, h]

theorem flow_correlate (hI hF : Bool) (m : ℕ) (w : ScopeDeskewWizardState)
    (inp : Option TickData) (h : w.m_state = .STATE_CORRELATE) :
    DoMainProcessingFlow hI hF m w inp =
      if w.m_measureCycle + 1 ≥ nWaveforms then
        { w with m_measureCycle := w.m_measureCycle + 1, m_state := .STATE_DONE }
      else
        { w with
          m_measureCycle := w.m_measureCycle + 1
          armCount := w.armCount + 1
          m_state := .STATE_ACQUIRE } := by
  rw [DoMainProcessingFlow.eq_def, h]

theorem wizardInv_step (hI hF : Bool) (m : ℕ) (w : ScopeDeskewWizardState)
    (inp : Option TickData) (h : wizardInv w) :
    wizardInv (DoMainProcessingFlow hI hF m w inp) := by
  cases hw : w.m_state with
  | STATE_DONE =>
    rw [flow_done hI hF m w inp hw]
    exact h
  | STATE_ACQUIRE =>
    cases inp with
    | none =>
      rw [flow_acquire_none hI hF m w hw]
      exact h
    | some data =>
      rw [flow_acquire_some hI hF m w data hw]
      by_cases hstale : w.m_lastTriggerTimestamp = data.m_startTimestamp ∧
          w.m_lastTriggerFs = data.m_startFemtoseconds
      · rw [if_pos hstale]
        exact h
      · rw [if_neg hstale]
        intro herr
        simp only at herr
        cases herror : (StartCorrelation hI hF m data.pri data.sec w.session).2 with
        | some e =>
          rw [herror] at herr
          simp at herr
        | none =>
          rw [herror] at herr
          simp at herr
          have hw0 : w.errorCount = 0 := by omega
          obtain ⟨hcl, hmatch⟩ := h hw0
          rw [hw] at hmatch
          obtain ⟨b, ts, hrec⟩ := StartCorrelation_record hI hF m data.pri data.sec
            w.session herror
          simp only [hrec, hw]
          constructor
          · rw [recordTrial_corrs_len, recordTrial_skews_len, hcl]
          · rw [recordTrial_skews_len]
            exact ⟨by omega, hmatch.2⟩
  | STATE_CORRELATE =>
    rw [flow_correlate hI hF m w inp hw]
    by_cases hdone : w.m_measureCycle + 1 ≥ nWaveforms
    · rw [if_pos hdone]
      intro herr
      simp only at herr
      obtain ⟨hcl, hmatch⟩ := h herr
      rw [hw] at hmatch
      exact ⟨hcl, by simp only; omega, by simp only; omega⟩
    · rw [if_neg hdone]
      intro herr
      simp only at herr
      obtain ⟨hcl, hmatch⟩ := h herr
      rw [hw] at hmatch
      exact ⟨hcl, by simp only; omega, by simp only; omega⟩

theorem wizardInv_runTicks (hI hF : Bool) (m : ℕ) :
    ∀ (trace : List (Option TickData)) (w : ScopeDeskewWizardState),
      wizardInv w → wizardInv (runTicks hI hF m w trace) := by
  intro trace
  induction trace with
  | nil => intro w h; exact h
  | cons inp trace ih =>
    intro w h
    exact ih _ (wizardInv_step hI hF m w inp h)

theorem wizardInv_start (ts fs : ℤ) : wizardInv (startWizard ts fs) := by
  intro _
  refine ⟨rfl, ?_⟩
  simp [startWizard, initSession, nWaveforms]

theorem runCandidates_some_other_init (eval : ℤ → Option (ℕ × ℚ)) (ds : List ℤ)
    (b r b' : ℚ × ℤ) (h : runCandidates eval ds b = some r) :
    runCandidates eval ds b' ≠ none := by
  intro hn
  rw [runCandidates_none_iff] at hn
  have h0 : runCandidates eval ds b = none := (runCandidates_none_iff eval ds b).mpr hn
  rw [h] at h0
  exact Option.noConfusion h0

/-- C1: on both CPU backends, a candidate offset with zero matched sample
pairs (samplesProcessed == 0, NaN normalized correlation) never replaces the
running best: a single update with a zero-count candidate leaves the best
pair unchanged, and the final outcome of a whole run is either the initial
best pair or comes from a candidate with a nonzero sample count — never from
a zero-overlap candidate, even if that candidate is evaluated first. -/
theorem C1_zero_overlap_never_best
    (sp ss : SparseAnalogWaveform) (up us : UniformAnalogWaveform)
    (m1 m2 : ℕ) (init1 init2 r1 r2 : ℚ × ℤ)
    (h1 : DoProcessWaveformSparse sp ss m1 init1 = some r1)
    (h2 : DoProcessWaveformUniformUnequalRate up us m2 init2 = some r2) :
    (∀ (b : ℚ × ℤ) (d : ℤ) (q : ℚ), updateBest b d (normCorr (0, q)) = b) ∧
    (r1 = init1 ∨ ∃ d ∈ correlationOffsets m1, ∃ k q,
      evalSparseCandidate sp ss d = some (k, q) ∧ k ≠ 0 ∧ r1 = (q / (k : ℚ), d)) ∧
    (r2 = init2 ∨ ∃ d ∈ correlationOffsets m2, ∃ k q,
      evalUniformCandidate up us d = some (k, q) ∧ k ≠ 0 ∧ r2 = (q / (k : ℚ), d)) :=
  ⟨fun b d q => updateBest_zero b d q,
   runCandidates_init_or_winner _ _ _ _ h1,
   runCandidates_init_or_winner _ _ _ _ h2⟩

/-- C2 counterexample: the sparse CPU path computes `deltaFs` as
`timescale * d` only; at d = 0 with primary trigger phase 5 fs and secondary
trigger phase 3 fs, the claimed formula gives 2 fs but the code's sparse
deltaFs is 0 fs. -/
theorem C2_sparse_deltaFs_counterexample :
    sparseDeltaFs exSparsePri 0 = 0 ∧
    exSparsePri.m_timescale * 0 +
      (exSparsePri.m_triggerPhase - exSparseSec.m_triggerPhase) = 2 ∧
    sparseDeltaFs exSparsePri 0 ≠
      exSparsePri.m_timescale * 0 +
        (exSparsePri.m_triggerPhase - exSparseSec.m_triggerPhase) := by
  refine ⟨by decide, by decide, by decide⟩

/-- C2 (amended): the uniform CPU path's deltaFs is
`d * primary.timescale + (primary.triggerPhase - secondary.triggerPhase)`,
but the sparse CPU path's deltaFs is `primary.timescale * d` alone; there the
trigger phases enter through the absolute sample times instead (primary's in
the target, secondary's in the secondary end time), so the sparse
cursor-advance comparison is still equivalent to comparing the secondary's
relative end time against the primary's relative start time shifted by
`d * primary.timescale + (primary.triggerPhase - secondary.triggerPhase)`. -/
theorem C2_trigger_phase_amended :
    (∀ (up us : UniformAnalogWaveform) (d : ℤ),
      uniformDeltaFs up us d =
        up.m_timescale * d + (up.m_triggerPhase - us.m_triggerPhase)) ∧
    (∀ (sp : SparseAnalogWaveform) (d : ℤ), sparseDeltaFs sp d = sp.m_timescale * d) ∧
    (∀ (sp ss : SparseAnalogWaveform) (d oi o du : ℤ),
      sparseSecEnd ss o du < sparseTarget sp d oi ↔
        (o + du) * ss.m_timescale <
          oi * sp.m_timescale +
            (sp.m_timescale * d + (sp.m_triggerPhase - ss.m_triggerPhase))) := by
  refine ⟨fun _ _ _ => rfl, fun _ _ => rfl, ?_⟩
  intro sp ss d oi o du
  rw [sparseSecEnd, sparseTarget, sparseStart, sparseDeltaFs]
  constructor <;> intro h <;> linarith

/-- C3 counterexample: a uniform pair on which every candidate of the window
`[-2, 2)` has zero matched sample pairs; the outcome keeps the sentinel
bestCorrelation 0 but bestOffset stays at its initial value 0, not at the
window's first candidate -2. -/
theorem C3_all_empty_counterexample :
    (∀ d ∈ correlationOffsets 2,
      evalUniformCandidate exNoOverlapPri exNoOverlapSec d = some (0, 0)) ∧
    DoProcessWaveformUniformUnequalRate exNoOverlapPri exNoOverlapSec 2
      ((0 : ℚ), (0 : ℤ)) = some ((0 : ℚ), (0 : ℤ)) ∧
    ((0 : ℤ) ≠ -2) := by
  refine ⟨by decide, by decide, by decide⟩

/-- C3 (amended): when every candidate offset yields zero matched sample
pairs, no update ever fires, so the run returns the initial best pair
unchanged — bestCorrelation stays the sentinel 0 and bestOffset stays its
initial value 0 from construction, not the window's first candidate
-maxSkewSamples.  The Vulkan host scan likewise returns its local sentinel
`(0, 0)` when every corrOut entry is NaN. -/
theorem C3_all_empty_amended :
    constructionBest = ((0 : ℚ), (0 : ℤ)) ∧
    (∀ (sp ss : SparseAnalogWaveform) (m : ℕ) (init : ℚ × ℤ),
      (∀ d ∈ correlationOffsets m, ∃ q, evalSparseCandidate sp ss d = some (0, q)) →
      DoProcessWaveformSparse sp ss m init = some init) ∧
    (∀ (up us : UniformAnalogWaveform) (m : ℕ) (init : ℚ × ℤ),
      (∀ d ∈ correlationOffsets m, ∃ q, evalUniformCandidate up us d = some (0, q)) →
      DoProcessWaveformUniformUnequalRate up us m init = some init) ∧
    (∀ (m : ℕ) (L : List (Option ℚ)) (i : ℕ) (b : ℚ × ℤ),
      (∀ v ∈ L, v = none) → vulkanScan m L i b = b) := by
  refine ⟨rfl, ?_, ?_, ?_⟩
  · intro sp ss m init hz
    exact runCandidates_skip_zero _ _ _ hz
  · intro up us m init hz
    exact runCandidates_skip_zero _ _ _ hz
  · intro m L i b hz
    exact vulkanScan_all_none m L i b hz

/-- C3 witness: the amended statement applied to the concrete no-overlap
pair with the construction-time best `(0, 0)`. -/
theorem C3_all_empty_amended_witness :
    DoProcessWaveformUniformUnequalRate exNoOverlapPri exNoOverlapSec 2
      ((0 : ℚ), (0 : ℤ)) = some ((0 : ℚ), (0 : ℤ)) :=
  C3_all_empty_amended.2.2.1 exNoOverlapPri exNoOverlapSec 2 ((0 : ℚ), (0 : ℤ))
    (fun d hd =>
      ⟨0, (by decide : ∀ d ∈ correlationOffsets 2,
        evalUniformCandidate exNoOverlapPri exNoOverlapSec d = some (0, 0)) d hd⟩)

/-- C4 counterexample: with secondary timescale 5 and target 10 the cursor
loop of the Uniform/Uniform CPU path stops at secondary index 1, while the
spec's direct division `target / secondary.timescale` gives index 2; on the
concrete waveforms exUniPri/exUniSec the two evaluations accumulate
different products (20 versus 30). -/
theorem C4_direct_index_counterexample :
    advanceUniform 5 3 10 0 = some 1 ∧
    ((10 : ℤ) / 5).toNat = 2 ∧
    evalUniformCandidate exUniPri exUniSec 0 = some (2, 20) ∧
    evalUniformCandidateSpec exUniPri exUniSec 0 = some (2, 30) ∧
    (some ((2 : ℕ), (20 : ℚ)) : Option (ℕ × ℚ)) ≠ some ((2 : ℕ), (30 : ℚ)) := by
  refine ⟨by decide, by decide, ?_, ?_, by decide⟩
  · simp [evalUniformCandidate, uniformCorrLoop, advanceUniform, advanceUniformAux,
      uniformDeltaFs, exUniPri, exUniSec, UniformAnalogWaveform.size]
  · simp [evalUniformCandidateSpec, uniformCorrLoopSpec, uniformDeltaFs, exUniPri, exUniSec,
      UniformAnalogWaveform.size]

/-- C4 (amended): for a positive secondary timescale `c`, non-negative
target and in-range cursor `s`, the cursor-advance loop returns the index
`max s ((target - 1).toNat / c.toNat)` — the first index whose sample end
time `(index + 1) * c` reaches the target, i.e. `ceil(target / c) - 1` — when
it is in range, and the exhausted marker otherwise.  This differs from the
direct division `target / c` exactly when `c` divides a positive target. -/
theorem C4_cursor_index_amended (c : ℤ) (slen : ℕ) (t : ℤ) (s : ℕ)
    (hc : 0 < c) (ht : 0 ≤ t) (hs : s < slen) :
    advanceUniform c slen t s =
      if max s ((t - 1).toNat / c.toNat) < slen
      then some (max s ((t - 1).toNat / c.toNat)) else none :=
  advanceUniform_spec c slen t s hc ht hs

/-- C4 witness: the amended characterization evaluated at timescale 5,
target 10, cursor 0, secondary length 3, where it yields index 1. -/
theorem C4_cursor_index_amended_witness :
    (0 : ℤ) < 5 ∧ (0 : ℤ) ≤ 10 ∧ (0 : ℕ) < 3 ∧
    advanceUniform 5 3 10 0 =
      (if max 0 (((10 : ℤ) - 1).toNat / (5 : ℤ).toNat) < 3
       then some (max 0 (((10 : ℤ) - 1).toNat / (5 : ℤ).toNat)) else none) :=
  ⟨by decide, by decide, by decide,
   C4_cursor_index_amended 5 3 10 0 (by decide) (by decide) (by decide)⟩

/-- C1 witness: concrete sparse and uniform runs; the sparse run's winner is
candidate -1 (one matched pair), the uniform run's winner is candidate 0
(two matched pairs); on both, the zero-overlap candidates were skipped. -/
theorem C1_zero_overlap_never_best_witness :
    (∀ (b : ℚ × ℤ) (d : ℤ) (q : ℚ), updateBest b d (normCorr (0, q)) = b) ∧
    (((1 : ℚ), (-1 : ℤ)) = ((0 : ℚ), (0 : ℤ)) ∨
      ∃ d ∈ correlationOffsets 1, ∃ k q,
        evalSparseCandidate exSparsePri exSparseSec d = some (k, q) ∧ k ≠ 0 ∧
        ((1 : ℚ), (-1 : ℤ)) = (q / (k : ℚ), d)) ∧
    (((10 : ℚ), (0 : ℤ)) = ((0 : ℚ), (0 : ℤ)) ∨
      ∃ d ∈ correlationOffsets 1, ∃ k q,
        evalUniformCandidate exUniPri exUniSec d = some (k, q) ∧ k ≠ 0 ∧
        ((10 : ℚ), (0 : ℤ)) = (q / (k : ℚ), d)) :=
  C1_zero_overlap_never_best exSparsePri exSparseSec exUniPri exUniSec 1 1
    ((0 : ℚ), (0 : ℤ)) ((0 : ℚ), (0 : ℤ)) ((1 : ℚ), (-1 : ℤ)) ((10 : ℚ), (0 : ℤ))
    (by simp [DoProcessWaveformSparse, runCandidates, evalSparseCandidate, sparseCorrLoop,
      advanceSparse, advanceSparseAux, sparseStart, sparseSecEnd, sparseDeltaFs, updateBest,
      normCorr, correlationOffsets, offsetOfIndex, List.range_succ, exSparsePri, exSparseSec,
      SparseAnalogWaveform.size])
    (by
      simp [DoProcessWaveformUniformUnequalRate, runCandidates, evalUniformCandidate,
        uniformCorrLoop, advanceUniform, advanceUniformAux, uniformDeltaFs, updateBest,
        normCorr, correlationOffsets, offsetOfIndex, List.range_succ, exUniPri, exUniSec,
        UniformAnalogWaveform.size]
      norm_num)

/-- C5: the best pair is initialized once, at construction, to `(0, 0)` and
on the CPU backends is only ever replaced by a strictly greater normalized
correlation, never reset between trials.  Hence across a CPU-backend session
the recorded correlations are monotone non-decreasing, the last recorded
correlation always equals the running best, and a trial whose own best
correlation (from a fresh sentinel) is below the carried-over best records
the carried-over (offset, correlation) pair — its skew recomputed as the
stored offset times the current primary timescale — instead of its own. -/
theorem C5_history_monotone_carryover :
    initSession.best = ((0 : ℚ), (0 : ℤ)) ∧
    (∀ (m : ℕ) (trials : List (AnalogWaveformData × AnalogWaveformData)),
      List.Chain' (· ≤ ·) ((runSessionCPU m trials).m_correlations)) ∧
    (∀ (m : ℕ) (trials : List (AnalogWaveformData × AnalogWaveformData)) (c : ℚ),
      (runSessionCPU m trials).m_correlations.getLast? = some c →
      c = (runSessionCPU m trials).best.1) ∧
    (∀ (st : SessionState) (up us : UniformAnalogWaveform) (m : ℕ) (t : ℚ × ℤ),
      DoProcessWaveformUniformUnequalRate up us m ((0 : ℚ), (0 : ℤ)) = some t →
      t.1 < st.best.1 →
      StartCorrelation false false m (.uniform up) (.uniform us) st =
        (⟨st.best, st.m_skews ++ [st.best.2 * up.m_timescale],
          st.m_correlations ++ [st.best.1]⟩, none)) ∧
    (∀ (st : SessionState) (sp ss : SparseAnalogWaveform) (m : ℕ) (t : ℚ × ℤ),
      DoProcessWaveformSparse sp ss m ((0 : ℚ), (0 : ℤ)) = some t →
      t.1 < st.best.1 →
      StartCorrelation false false m (.sparse sp) (.sparse ss) st =
        (⟨st.best, st.m_skews ++ [st.best.2 * sp.m_timescale],
          st.m_correlations ++ [st.best.1]⟩, none)) := by
  refine ⟨rfl, ?_, ?_, ?_, ?_⟩
  · intro m trials
    exact (runSessionCPU_inv m trials).1
  · intro m trials c hc
    exact (runSessionCPU_inv m trials).2.2 c hc
  · intro st up us m t ht hlt
    have hne : runCandidates (evalUniformCandidate up us) (correlationOffsets m)
        st.best ≠ none := runCandidates_some_other_init _ _ _ _ _ ht
    obtain ⟨r, hr⟩ := Option.ne_none_iff_exists'.mp hne
    have hdom : ∀ d ∈ correlationOffsets m, ∀ k q,
        evalUniformCandidate up us d = some (k, q) → k ≠ 0 → q / (k : ℚ) ≤ st.best.1 := by
      intro d hd k q he hk
      have := runCandidates_dominates _ _ _ _ ht d hd k q he hk
      exact le_trans this (le_of_lt hlt)
    have hfix : r = st.best := runCandidates_no_update _ _ _ _ hdom hr
    have hr' : DoProcessWaveformUniformUnequalRate up us m st.best = some r := hr
    rw [StartCorrelation_uniform_eq, if_neg (by simp), hr', hfix]
    rfl
  · intro st sp ss m t ht hlt
    have hne : runCandidates (evalSparseCandidate sp ss) (correlationOffsets m)
        st.best ≠ none := runCandidates_some_other_init _ _ _ _ _ ht
    obtain ⟨r, hr⟩ := Option.ne_none_iff_exists'.mp hne
    have hdom : ∀ d ∈ correlationOffsets m, ∀ k q,
        evalSparseCandidate sp ss d = some (k, q) → k ≠ 0 → q / (k : ℚ) ≤ st.best.1 := by
      intro d hd k q he hk
      have := runCandidates_dominates _ _ _ _ ht d hd k q he hk
      exact le_trans this (le_of_lt hlt)
    have hfix : r = st.best := runCandidates_no_update _ _ _ _ hdom hr
    have hr' : DoProcessWaveformSparse sp ss m st.best = some r := hr
    rw [StartCorrelation_sparse_eq, hr', hfix]
    rfl

/-- C5 witness: a trial on the one-sample pair (own best correlation 1 from
a fresh sentinel) entered with carried-over best `(5, 7)` re-records the
carried-over pair, not its own. -/
theorem C5_history_monotone_carryover_witness :
    StartCorrelation false false 1 (.uniform exLowPri) (.uniform exLowSec) exPriorSession =
      (⟨((5 : ℚ), (7 : ℤ)), [(7 : ℤ)] ++ [(7 : ℤ) * exLowPri.m_timescale],
        [(5 : ℚ)] ++ [(5 : ℚ)]⟩, none) :=
  C5_history_monotone_carryover.2.2.2.1 exPriorSession exLowPri exLowSec 1
    ((1 : ℚ), (0 : ℤ))
    (by
      simp [DoProcessWaveformUniformUnequalRate, runCandidates, evalUniformCandidate,
        uniformCorrLoop, advanceUniform, advanceUniformAux, uniformDeltaFs, updateBest,
        normCorr, correlationOffsets, offsetOfIndex, List.range_succ, exLowPri, exLowSec,
        UniformAnalogWaveform.size])
    (by norm_num [exPriorSession])

/-- C6: a mixed Uniform/Sparse pair makes StartCorrelation fail with the
unsupported-representation error in both orientations; the session state —
in particular the skew/correlation history — is returned unchanged and no
computation over the samples takes place. -/
theorem C6_representation_mismatch (hI hF : Bool) (m : ℕ)
    (up : UniformAnalogWaveform) (ss : SparseAnalogWaveform) (st : SessionState) :
    StartCorrelation hI hF m (.uniform up) (.sparse ss) st =
      (st, some .unsupportedRepresentation) ∧
    StartCorrelation hI hF m (.sparse ss) (.uniform up) st =
      (st, some .unsupportedRepresentation) :=
  ⟨StartCorrelation_mix_us hI hF m up ss st, StartCorrelation_mix_su hI hF m ss up st⟩

/-- C7 (amended): for a Uniform/Uniform trial the Vulkan backend is selected
if and only if both `g_hasShaderInt64` and `g_hasShaderFloat64` hold; when
either capability is missing the trial is computed by the CPU backend rather
than failing.  The two backends produce the same recorded outcome when the
trial is entered with the sentinel best pair `(0, 0)`; they are not
interchangeable in general, because the CPU path folds starting from the
carried-over best while the Vulkan host scan always restarts from `(0, 0)`
(see the counterexample). -/
theorem C7_backend_selection_amended :
    (∀ (up us : UniformAnalogWaveform) (m : ℕ) (st : SessionState),
      StartCorrelation true true m (.uniform up) (.uniform us) st =
        (recordTrial (DoProcessWaveformUniformUnequalRateVulkan up us m)
          up.m_timescale st, none)) ∧
    (∀ (hI hF : Bool), (hI && hF) = false →
      ∀ (up us : UniformAnalogWaveform) (m : ℕ) (st : SessionState) (r : ℚ × ℤ),
        DoProcessWaveformUniformUnequalRate up us m st.best = some r →
        StartCorrelation hI hF m (.uniform up) (.uniform us) st =
          (recordTrial r up.m_timescale st, none)) ∧
    (∀ (up us : UniformAnalogWaveform) (m : ℕ) (r : ℚ × ℤ),
      DoProcessWaveformUniformUnequalRate up us m ((0 : ℚ), (0 : ℤ)) = some r →
      DoProcessWaveformUniformUnequalRateVulkan up us m = r) := by
  refine ⟨?_, ?_, ?_⟩
  · intro up us m st
    rw [StartCorrelation_uniform_eq, if_pos (by simp)]
  · intro hI hF hcap up us m st r hrun
    rw [StartCorrelation_uniform_eq, if_neg (by simp [hcap]), hrun]
  · intro up us m r h
    exact vulkan_eq_cpu_from_sentinel up us m r h

/-- C7 counterexample: on the same input pair and the same entry state with
carried-over best `(5, 7)`, the CPU backend keeps `(5, 7)` (no candidate
beats it) while the Vulkan backend, which resets to `(0, 0)`, reports the
trial's own maximum `(1, 0)`: the two backends' outcomes differ. -/
theorem C7_backend_outcome_counterexample :
    DoProcessWaveformUniformUnequalRate exLowPri exLowSec 1 ((5 : ℚ), (7 : ℤ)) =
      some ((5 : ℚ), (7 : ℤ)) ∧
    DoProcessWaveformUniformUnequalRateVulkan exLowPri exLowSec 1 = ((1 : ℚ), (0 : ℤ)) ∧
    (((5 : ℚ), (7 : ℤ)) : ℚ × ℤ) ≠ ((1 : ℚ), (0 : ℤ)) := by
  refine ⟨?_, ?_, by decide⟩
  · simp [DoProcessWaveformUniformUnequalRate, runCandidates, evalUniformCandidate,
      uniformCorrLoop, advanceUniform, advanceUniformAux, uniformDeltaFs, updateBest,
      normCorr, correlationOffsets, offsetOfIndex, List.range_succ, exLowPri, exLowSec,
      UniformAnalogWaveform.size]
  · simp [DoProcessWaveformUniformUnequalRateVulkan, vulkanScan, gpuCorrOut, candNc,
      evalUniformCandidate, uniformCorrLoop, advanceUniform, advanceUniformAux,
      uniformDeltaFs, normCorr, correlationOffsets, offsetOfIndex, List.range_succ,
      exLowPri, exLowSec, UniformAnalogWaveform.size]

/-- C7 witness: the sentinel-entry equivalence applied to the concrete
unequal-rate pair, whose CPU run from `(0, 0)` yields `(10, 0)`. -/
theorem C7_backend_selection_amended_witness :
    DoProcessWaveformUniformUnequalRateVulkan exUniPri exUniSec 1 = ((10 : ℚ), (0 : ℤ)) :=
  C7_backend_selection_amended.2.2 exUniPri exUniSec 1 ((10 : ℚ), (0 : ℤ))
    (by
      simp [DoProcessWaveformUniformUnequalRate, runCandidates, evalUniformCandidate,
        uniformCorrLoop, advanceUniform, advanceUniformAux, uniformDeltaFs, updateBest,
        normCorr, correlationOffsets, offsetOfIndex, List.range_succ, exUniPri, exUniSec,
        UniformAnalogWaveform.size]
      norm_num)

/-- C8: the DONE state is terminal — a tick in STATE_DONE changes nothing,
in particular it arms no further single-shot acquisition — and any session
from the wizard's start state whose trials all completed without error and
which reached STATE_DONE holds exactly nWaveforms = 10 trial records (skews
and correlations), appended one per completed trial. -/
theorem C8_done_terminal_history :
    (∀ (hI hF : Bool) (m : ℕ) (w : ScopeDeskewWizardState) (inp : Option TickData),
      w.m_state = .STATE_DONE → DoMainProcessingFlow hI hF m w inp = w) ∧
    (∀ (hI hF : Bool) (m : ℕ) (ts fs : ℤ) (trace : List (Option TickData)),
      (runTicks hI hF m (startWizard ts fs) trace).errorCount = 0 →
      (runTicks hI hF m (startWizard ts fs) trace).m_state = .STATE_DONE →
      (runTicks hI hF m (startWizard ts fs) trace).session.m_skews.length = nWaveforms ∧
      (runTicks hI hF m (startWizard ts fs) trace).session.m_correlations.length =
        nWaveforms) := by
  refine ⟨?_, ?_⟩
  · intro hI hF m w inp h
    exact flow_done hI hF m w inp h
  · intro hI hF m ts fs trace herr hdone
    have hinv := wizardInv_runTicks hI hF m trace (startWizard ts fs) (wizardInv_start ts fs)
    obtain ⟨hcl, hmatch⟩ := hinv herr
    rw [hdone] at hmatch
    exact ⟨hmatch.1, by rw [hcl, hmatch.1]⟩

/-- C8 witness: a concrete 20-tick session (ten fresh acquisitions
interleaved with ten correlate ticks) reaches STATE_DONE with no errors and
exactly ten recorded skews and correlations. -/
theorem C8_done_terminal_history_witness :
    (runTicks false false 1 (startWizard 0 0) exTrace).errorCount = 0 ∧
    (runTicks false false 1 (startWizard 0 0) exTrace).m_state = .STATE_DONE ∧
    (runTicks false false 1 (startWizard 0 0) exTrace).session.m_skews.length =
      nWaveforms ∧
    (runTicks false false 1 (startWizard 0 0) exTrace).session.m_correlations.length =
      nWaveforms := by
  have herr : (runTicks false false 1 (startWizard 0 0) exTrace).errorCount = 0 := by
    simp [runTicks, exTrace, exTick, DoMainProcessingFlow, StartCorrelation, recordTrial,
      startWizard, initSession, constructionBest, nWaveforms,
      DoProcessWaveformUniformUnequalRate, runCandidates, evalUniformCandidate,
      uniformCorrLoop, advanceUniform, advanceUniformAux, uniformDeltaFs, updateBest,
      normCorr, correlationOffsets, offsetOfIndex, List.range_succ, exLowPri, exLowSec,
      UniformAnalogWaveform.size]
  have hdone : (runTicks false false 1 (startWizard 0 0) exTrace).m_state =
      .STATE_DONE := by
    simp [runTicks, exTrace, exTick, DoMainProcessingFlow, StartCorrelation, recordTrial,
      startWizard, initSession, constructionBest, nWaveforms,
      DoProcessWaveformUniformUnequalRate, runCandidates, evalUniformCandidate,
      uniformCorrLoop, advanceUniform, advanceUniformAux, uniformDeltaFs, updateBest,
      normCorr, correlationOffsets, offsetOfIndex, List.range_succ, exLowPri, exLowSec,
      UniformAnalogWaveform.size]
  obtain ⟨h1, h2⟩ := C8_done_terminal_history.2 false false 1 0 0 exTrace herr hdone
  exact ⟨herr, hdone, h1, h2⟩

/-- C9: in STATE_ACQUIRE a tick moves to STATE_CORRELATE exactly when
primary data is present and its data-arrival signature differs from the
stored one; with no data, or with an unchanged signature, the tick returns
the state unchanged (same phase, signature and history); on the transition
the new signature is stored and the correlation's session update is
applied. -/
theorem C9_acquire_polling (hI hF : Bool) (m : ℕ) (w : ScopeDeskewWizardState)
    (data : TickData) (hw : w.m_state = .STATE_ACQUIRE) :
    DoMainProcessingFlow hI hF m w none = w ∧
    ((w.m_lastTriggerTimestamp = data.m_startTimestamp ∧
      w.m_lastTriggerFs = data.m_startFemtoseconds) →
      DoMainProcessingFlow hI hF m w (some data) = w) ∧
    (¬(w.m_lastTriggerTimestamp = data.m_startTimestamp ∧
       w.m_lastTriggerFs = data.m_startFemtoseconds) →
      (DoMainProcessingFlow hI hF m w (some data)).m_state = .STATE_CORRELATE ∧
      (DoMainProcessingFlow hI hF m w (some data)).m_lastTriggerTimestamp =
        data.m_startTimestamp ∧
      (DoMainProcessingFlow hI hF m w (some data)).m_lastTriggerFs =
        data.m_startFemtoseconds ∧
      (DoMainProcessingFlow hI hF m w (some data)).session =
        (StartCorrelation hI hF m data.pri data.sec w.session).1) := by
  refine ⟨flow_acquire_none hI hF m w hw, ?_, ?_⟩
  · intro hstale
    rw [flow_acquire_some hI hF m w data hw, if_pos hstale]
  · intro hfresh
    rw [flow_acquire_some hI hF m w data hw, if_neg hfresh]
    exact ⟨rfl, rfl, rfl, rfl⟩

/-- C9 witness: from the start state, a tick with no data and a tick with a
stale signature leave the state unchanged; a tick with a fresh signature
moves to STATE_CORRELATE. -/
theorem C9_acquire_polling_witness :
    DoMainProcessingFlow false false 1 (startWizard 0 0) none = startWizard 0 0 ∧
    DoMainProcessingFlow false false 1 (startWizard 0 0)
      (some ⟨0, 0, .uniform exLowPri, .uniform exLowSec⟩) = startWizard 0 0 ∧
    (DoMainProcessingFlow false false 1 (startWizard 0 0)
      (some ⟨1, 0, .uniform exLowPri, .uniform exLowSec⟩)).m_state = .STATE_CORRELATE := by
  have h0 := C9_acquire_polling false false 1 (startWizard 0 0)
    ⟨0, 0, .uniform exLowPri, .uniform exLowSec⟩ rfl
  have h1 := C9_acquire_polling false false 1 (startWizard 0 0)
    ⟨1, 0, .uniform exLowPri, .uniform exLowSec⟩ rfl
  exact ⟨h0.1, h0.2.1 (by exact ⟨rfl, rfl⟩), (h1.2.2 (by simp [startWizard])).1⟩

/-- C10: every secondary-array access of the two CPU inner loops is
in-bounds whenever the secondary waveform is non-empty (given the usual
same-length well-formedness of the sparse buffers), so the whole run
performs no out-of-bounds read; with an empty secondary waveform an
out-of-bounds read is reachable on both paths, witnessed by the concrete
runs below evaluating to the error value. -/
theorem C10_secondary_nonempty_bounds :
    (∀ (sp ss : SparseAnalogWaveform) (m : ℕ) (init : ℚ × ℤ),
      sp.size ≤ sp.m_samples.length →
      ss.size ≤ ss.m_durations.length →
      ss.size ≤ ss.m_samples.length →
      1 ≤ ss.size →
      DoProcessWaveformSparse sp ss m init ≠ none) ∧
    (∀ (up us : UniformAnalogWaveform) (m : ℕ) (init : ℚ × ℤ),
      1 ≤ us.size →
      DoProcessWaveformUniformUnequalRate up us m init ≠ none) ∧
    DoProcessWaveformSparse exSparsePri exEmptySparse 1 ((0 : ℚ), (0 : ℤ)) = none ∧
    DoProcessWaveformUniformUnequalRate exLowPri exEmptyUniform 1
      ((0 : ℚ), (0 : ℤ)) = none := by
  refine ⟨?_, ?_, by decide, by decide⟩
  · intro sp ss m init hps hdu hss hsec h
    rw [DoProcessWaveformSparse, runCandidates_none_iff] at h
    obtain ⟨d, _, hev⟩ := h
    exact evalSparseCandidate_ne_none sp ss d hps hdu hss hsec hev
  · intro up us m init hsec h
    rw [DoProcessWaveformUniformUnequalRate, runCandidates_none_iff] at h
    obtain ⟨d, _, hev⟩ := h
    exact evalUniformCandidate_ne_none up us d hsec hev

/-- C10 witness: on concrete non-empty secondaries both CPU runs complete
without an out-of-bounds read. -/
theorem C10_secondary_nonempty_bounds_witness :
    DoProcessWaveformSparse exSparsePri exSparseSec 1 ((0 : ℚ), (0 : ℤ)) ≠ none ∧
    DoProcessWaveformUniformUnequalRate exLowPri exLowSec 1 ((0 : ℚ), (0 : ℤ)) ≠ none :=
  ⟨C10_secondary_nonempty_bounds.1 exSparsePri exSparseSec 1 ((0 : ℚ), (0 : ℤ))
      (by decide) (by decide) (by decide) (by decide),
   C10_secondary_nonempty_bounds.2.1 exLowPri exLowSec 1 ((0 : ℚ), (0 : ℤ)) (by decide)⟩
